import Mathlib

/-!
Verification of the Slack inbox synchronization and deduplication mechanism
(helpers/slack_listener.py and helpers/slack_acknowledger.py), shallowly
embedded in Lean 4.  Files on disk are modelled as inductive types
(absent / corrupt JSON / parsed content); the network provider is modelled
as an explicit environment function; wall-clock time is an explicit string
parameter.
-/

/-- A record of the Inbox Store (one element of the slack_inbox.json array).
`timestamp` is an `Option` because a hand-edited store may lack the key
(Python `msg.get("timestamp")` returns `None` then). -/
structure Message where
  id : Nat
  user : String
  channel : String
  text : String
  timestamp : Option String
  received_at : String
  read : Bool
deriving DecidableEq, Repr

/-- The on-disk inbox file: absent, present-but-invalid JSON, or a parsed list. -/
inductive InboxFile where
  | absent
  | corrupt
  | valid (messages : List Message)
deriving DecidableEq, Repr

/-- `load_inbox` (slack_listener.py lines 63-71 and slack_acknowledger.py 58-66):
missing file and JSON-decode failure both degrade to the empty list. -/
def load_inbox : InboxFile → List Message
  | InboxFile.absent => []
  | InboxFile.corrupt => []
  | InboxFile.valid msgs => msgs

/-- `add_message` (slack_listener.py lines 80-98): load, build the record with
`id = len(inbox) + 1`, append, save.  Returns the written file and the record. -/
def add_message (f : InboxFile) (user channel text timestamp now : String) :
    InboxFile × Message :=
  let inbox := load_inbox f
  let message : Message :=
    ⟨inbox.length + 1, user, channel, text, some timestamp, now, false⟩
  (InboxFile.valid (inbox ++ [message]), message)

/-- `get_known_timestamps` (slack_listener.py lines 136-139): the set of truthy
timestamps present in the inbox. -/
def get_known_timestamps (inbox : List Message) : Finset String :=
  inbox.foldr
    (fun m s =>
      match m.timestamp with
      | none => s
      | some t => if t = "" then s else insert t s)
    (∅ : Finset String)

/-- A raw provider event as returned by `conversations_history`. -/
structure SlackEvent where
  bot_id : Option String
  subtype : Option String
  ts : Option String
  user : Option String
  text : Option String
deriving DecidableEq, Repr

/-- Bot-message filter (slack_listener.py lines 290-291). -/
def isBotEvent (ev : SlackEvent) : Bool :=
  ev.bot_id.isSome || ev.subtype == some "bot_message"

/-- In-memory state carried across the poll loop: the inbox file plus the
`known_ts` set (slack_listener.py line 268, updated at line 309). -/
structure ListenerState where
  file : InboxFile
  known : Finset String

/-- Observable side effects of the per-event body of the poll loop, in program
order: durable append, in-memory dedup-set update, best-effort reaction call. -/
inductive Effect where
  | append (m : Message)
  | know (ts : String)
  | react (channel ts : String) (ok : Bool)

/-- One iteration of the per-event loop of `poll_for_messages`
(slack_listener.py lines 288-316): skip bot events, skip known timestamps,
otherwise `add_message`, `known_ts.add(ts)`, then attempt a reaction whose
failure is swallowed (`except Exception: pass`).  `reactOk` is the provider
environment for the reaction call, `clock` supplies `datetime.now()`. -/
def poll_process_event (reactOk : String → Bool) (clock : SlackEvent → String)
    (channel_id : String) (st : ListenerState) (ev : SlackEvent) :
    ListenerState × List Effect :=
  if isBotEvent ev then (st, [])
  else
    let ts := ev.ts.getD ""
    if ts ∈ st.known then (st, [])
    else
      let user_id := ev.user.getD "unknown"
      let text := ev.text.getD ""
      let fm := add_message st.file user_id ("#" ++ channel_id) text ts (clock ev)
      (⟨fm.1, insert ts st.known⟩,
       [Effect.append fm.2, Effect.know ts, Effect.react channel_id ts (reactOk ts)])

/-- The per-event loop over a whole batch, threading state and concatenating
the effect traces. -/
def poll_process_events (reactOk : String → Bool) (clock : SlackEvent → String)
    (channel_id : String) : ListenerState → List SlackEvent →
    ListenerState × List Effect
  | st, [] => (st, [])
  | st, ev :: rest =>
    let r1 := poll_process_event reactOk clock channel_id st ev
    let r2 := poll_process_events reactOk clock channel_id r1.1 rest
    (r2.1, r1.2 ++ r2.2)

/-- The poll loop's starting state over an empty inbox: no file, and
`known_ts = get_known_timestamps()` computed from it (slack_listener.py 268). -/
def emptyListenerState : ListenerState :=
  ⟨InboxFile.absent, get_known_timestamps (load_inbox InboxFile.absent)⟩

/-- Number of stored messages carrying a given timestamp. -/
def tsCount (inbox : List Message) (ts : String) : Nat :=
  (inbox.filter fun m => m.timestamp == some ts).length

/-- `msg.get("ts", "0")` as used by the cursor update (slack_listener.py 320). -/
def tsD0 (ev : SlackEvent) : String :=
  ev.ts.getD "0"

/-- Cursor update at the end of a poll cycle (slack_listener.py lines 318-323):
take the maximum `ts` over the batch (default "0") and advance only if it is
strictly greater than the current cursor. -/
def poll_cursor_update (messages : List SlackEvent) (last_ts : String) : String :=
  match messages with
  | [] => last_ts
  | m :: rest =>
    let latest_ts := rest.foldl (fun a x => max a (tsD0 x)) (tsD0 m)
    if last_ts < latest_ts then latest_ts else last_ts

/-- The cursor after a sequence of poll cycles. -/
def poll_cycles (batches : List (List SlackEvent)) (c : String) : String :=
  batches.foldl (fun c b => poll_cursor_update b c) c

/-- Cursor update of `sync_history` (slack_listener.py lines 201-205): if the
batch is nonempty, take `messages[0].get("ts", "")` and, when truthy, write it
as the new cursor WITHOUT comparing it to the current cursor. -/
def sync_history_cursor_update (messages : List SlackEvent)
    (cursor : Option String) : Option String :=
  match messages with
  | [] => cursor
  | m :: _ =>
    let latest_ts := m.ts.getD ""
    if latest_ts = "" then cursor else some latest_ts

/-- The on-disk acknowledgment-ledger file (slack_acknowledged.json): absent,
invalid JSON, or an object with an `acknowledged` array and an `updated_at`
marker. -/
inductive LedgerFile where
  | absent
  | corrupt
  | valid (acknowledged : List String) (updated_at : String)
deriving DecidableEq, Repr

/-- `load_acknowledged` (slack_acknowledger.py lines 69-78): missing file and
JSON-decode failure both degrade to the empty set; otherwise
`set(data.get("acknowledged", []))`.  A Python set of strings is modelled as
a duplicate-free `List String`, so `set(...)` is `List.dedup`. -/
def load_acknowledged : LedgerFile → List String
  | LedgerFile.absent => []
  | LedgerFile.corrupt => []
  | LedgerFile.valid l _ => l.dedup

/-- `save_acknowledged` (slack_acknowledger.py lines 81-84): write
`{"acknowledged": list(timestamps), "updated_at": now}`. -/
def save_acknowledged (timestamps : List String) (now : String) : LedgerFile :=
  LedgerFile.valid timestamps now

/-- System-event text filter (slack_acknowledger.py line 105): Python
`"has joined the channel" in text` is substring containment. -/
def isSystemText (text : String) : Bool :=
  decide ("has joined the channel".data <:+: text.data) ||
    decide ("has renamed the channel".data <:+: text.data)

/-- The already-acknowledged skip (slack_acknowledger.py lines 99-100):
`ts = msg.get("timestamp"); if ts and ts in acknowledged: continue`.
The membership test only fires for a truthy (present and nonempty) timestamp. -/
def ledger_skip (acknowledged : List String) (msg : Message) : Bool :=
  match msg.timestamp with
  | none => false
  | some ts => !(ts = "") && decide (ts ∈ acknowledged)

/-- `get_pending_acknowledgments` (slack_acknowledger.py lines 87-110): keep
messages that are read, not skipped by the ledger, and not system events. -/
def get_pending_acknowledgments (inboxF : InboxFile) (ackF : LedgerFile) :
    List Message :=
  let inbox := load_inbox inboxF
  let acknowledged := load_acknowledged ackF
  inbox.filter fun msg =>
    msg.read && !(ledger_skip acknowledged msg) && !(isSystemText msg.text)

/-- Outcome of one `reactions_add` call as seen by `acknowledge_message`:
success, a Slack API error whose text contains "already_reacted", any other
Slack API error, or any other exception. -/
inductive AckResult where
  | success
  | alreadyReacted
  | apiError (e : String)
  | otherError (e : String)
deriving DecidableEq, Repr

/-- `acknowledge_message` (slack_acknowledger.py lines 113-131): success and
"already_reacted" both yield `True`; every other failure is logged and yields
`False` — nothing propagates. -/
def acknowledge_message : AckResult → Bool
  | AckResult.success => true
  | AckResult.alreadyReacted => true
  | AckResult.apiError _ => false
  | AckResult.otherError _ => false

/-- Channel resolution (slack_acknowledger.py lines 149-155): strip a leading
"#", and fall back to the default channel unless the result starts with "C". -/
def resolveChannel (msgChannel channel_id : String) : String :=
  let c := if msgChannel.startsWith "#" then msgChannel.drop 1 else msgChannel
  if c = "" || !(c.startsWith "C") then channel_id else c

/-- The per-message body of the `process_acknowledgments` loop
(slack_acknowledger.py lines 144-160), folding the (ledger set, new-count)
accumulator: falsy timestamps are skipped; a successful call inserts the
timestamp and bumps the count.  `resp` is the provider environment keyed by
(channel, timestamp). -/
def ackStep (resp : String → String → AckResult) (channel_id : String)
    (acc : List String × Nat) (msg : Message) : List String × Nat :=
  match msg.timestamp with
  | none => acc
  | some ts =>
    if ts = "" then acc
    else
      let ch := resolveChannel msg.channel channel_id
      if acknowledge_message (resp ch ts) then (acc.1.insert ts, acc.2 + 1)
      else acc

/-- Result of one acknowledger cycle: the returned count, the resulting ledger
file, and the trace of ledger-save operations performed during the cycle. -/
structure AckCycleResult where
  newCount : Nat
  ackFile : LedgerFile
  saves : List (List String)

/-- `process_acknowledgments` (slack_acknowledger.py lines 134-165): compute
the pending set; if empty return 0 immediately; otherwise fold the
acknowledgment loop and, only when the count is positive, save the ledger
once, after the whole batch. -/
def process_acknowledgments (resp : String → String → AckResult)
    (channel_id : String) (inboxF : InboxFile) (ackF : LedgerFile)
    (now : String) : AckCycleResult :=
  let pending := get_pending_acknowledgments inboxF ackF
  if pending.isEmpty then ⟨0, ackF, []⟩
  else
    let acknowledged := load_acknowledged ackF
    let r := pending.foldl (ackStep resp channel_id) (acknowledged, 0)
    if 0 < r.2 then ⟨r.2, save_acknowledged r.1 now, [r.1]⟩
    else ⟨r.2, ackF, []⟩

/-- Timestamps the per-event loop would accept from a batch: the (defaulted)
`ts` of every non-bot event. -/
def acceptedSet : List SlackEvent → Finset String
  | [] => ∅
  | ev :: rest =>
    if isBotEvent ev then acceptedSet rest
    else insert (ev.ts.getD "") (acceptedSet rest)

/-- Loop invariant of the poll loop: the store holds exactly one message per
timestamp in the in-memory `known_ts` set, and none for any other timestamp. -/
def ListenerInv (st : ListenerState) : Prop :=
  ∀ ts : String, tsCount (load_inbox st.file) ts = if ts ∈ st.known then 1 else 0

/-- Arguments of one `add_message` call. -/
structure MsgArgs where
  user : String
  channel : String
  text : String
  timestamp : String
  now : String

/-- A sequence of `add_message` calls starting from a given inbox file. -/
def add_many (f : InboxFile) (args : List MsgArgs) : InboxFile :=
  args.foldl
    (fun f a => (add_message f a.user a.channel a.text a.timestamp a.now).1) f

/-- Messages appended by a trace, newest first, on top of `seen`. -/
def seenAfter (seen : List Message) : List Effect → List Message
  | [] => seen
  | Effect.append m :: rest => seenAfter (m :: seen) rest
  | Effect.know _ :: rest => seenAfter seen rest
  | Effect.react _ _ _ :: rest => seenAfter seen rest

/-- Every reaction attempt in the trace is preceded by a durable append of a
message carrying the same timestamp (`seen` holds the appends so far). -/
def reactsCovered (seen : List Message) : List Effect → Prop
  | [] => True
  | Effect.append m :: rest => reactsCovered (m :: seen) rest
  | Effect.know _ :: rest => reactsCovered seen rest
  | Effect.react _ ts _ :: rest =>
    (∃ m ∈ seen, m.timestamp = some ts) ∧ reactsCovered seen rest

theorem load_add_message (f : InboxFile) (u c t ts n : String) :
    load_inbox (add_message f u c t ts n).1
      = load_inbox f
        ++ [⟨(load_inbox f).length + 1, u, c, t, some ts, n, false⟩] := rfl

theorem id_add_message (f : InboxFile) (u c t ts n : String) :
    (add_message f u c t ts n).2.id = (load_inbox f).length + 1 := rfl

theorem tsCount_append (l₁ l₂ : List Message) (ts : String) :
    tsCount (l₁ ++ l₂) ts = tsCount l₁ ts + tsCount l₂ ts := by
  simp [tsCount, List.filter_append]

theorem le_poll_cursor_update (b : List SlackEvent) (c : String) :
    c ≤ poll_cursor_update b c := by
  unfold poll_cursor_update
  match b with
  | [] => exact le_refl c
  | m :: rest =>
    dsimp only
    split
    · exact le_of_lt (by assumption)
    · exact le_refl c

theorem le_poll_cycles (batches : List (List SlackEvent)) (c : String) :
    c ≤ poll_cycles batches c := by
  induction batches generalizing c with
  | nil => exact le_refl c
  | cons b rest ih =>
    exact le_trans (le_poll_cursor_update b c) (ih (poll_cursor_update b c))

/-- C2: FALSE as stated.  A `sync_history` cycle writes the batch head's
timestamp as the cursor without comparing it to the current cursor
(slack_listener.py lines 201-205): with cursor "100", syncing a batch whose
newest event has timestamp "050" regresses the cursor to "050" < "100". -/
theorem monotonic_cursor_counterexample :
    sync_history_cursor_update
        [⟨none, none, some "050", some "U1", some "x"⟩] (some "100")
      = some "050"
    ∧ ("050" : String) < "100" := by
  constructor
  · rfl
  · rw [String.lt_iff_toList_lt]; decide

/-- C2 (amended): across any sequence of POLL cycles the cursor never
decreases under the store's string ordering, because the poll loop advances
it only when the batch maximum is strictly greater (slack_listener.py
318-323); the `sync_history` path, by contrast, sets it unconditionally. -/
theorem monotonic_cursor_poll :
    (∀ (b : List SlackEvent) (c : String), c ≤ poll_cursor_update b c) ∧
    (∀ (batches : List (List SlackEvent)) (c : String),
      c ≤ poll_cycles batches c) :=
  ⟨le_poll_cursor_update, le_poll_cycles⟩

/-- C3: a corrupt inbox file loads as the empty list, and `add_message` on it
produces a valid one-record store whose record has id 1. -/
theorem corrupt_store_resilience :
    load_inbox InboxFile.corrupt = [] ∧
    (∀ u c t ts n : String,
      (add_message InboxFile.corrupt u c t ts n).1
        = InboxFile.valid [⟨1, u, c, t, some ts, n, false⟩]) ∧
    (∀ u c t ts n : String,
      load_inbox (add_message InboxFile.corrupt u c t ts n).1
        = [⟨1, u, c, t, some ts, n, false⟩]) := by
  refine ⟨rfl, fun u c t ts n => rfl, fun u c t ts n => rfl⟩

theorem add_many_map_id (args : List MsgArgs) : ∀ f : InboxFile,
    (load_inbox (add_many f args)).map (fun m => m.id)
      = (load_inbox f).map (fun m => m.id)
        ++ List.range' ((load_inbox f).length + 1) args.length := by
  induction args with
  | nil => intro f; simp [add_many]
  | cons a rest ih =>
    intro f
    have h1 : add_many f (a :: rest)
        = add_many (add_message f a.user a.channel a.text a.timestamp a.now).1
            rest := rfl
    rw [h1, ih, load_add_message]
    simp only [List.length_cons, List.map_append, List.map_cons, List.map_nil,
      List.length_append, List.length_singleton]
    rw [List.range'_succ ((load_inbox f).length + 1) rest.length 1]
    simp [List.append_assoc]

/-- C8: `add_message` assigns id = current length + 1, and a store built from
the empty store by appends has ids exactly 1..n, duplicate-free and strictly
increasing in insertion order. -/
theorem id_assignment :
    (∀ (f : InboxFile) (u c t ts n : String),
      (add_message f u c t ts n).2.id = (load_inbox f).length + 1) ∧
    (∀ args : List MsgArgs,
      (load_inbox (add_many InboxFile.absent args)).map (fun m => m.id)
        = List.range' 1 args.length) ∧
    (∀ args : List MsgArgs,
      ((load_inbox (add_many InboxFile.absent args)).map (fun m => m.id)).Nodup) ∧
    (∀ args : List MsgArgs,
      ((load_inbox (add_many InboxFile.absent args)).map
          (fun m => m.id)).Pairwise (· < ·)) := by
  have key : ∀ args : List MsgArgs,
      (load_inbox (add_many InboxFile.absent args)).map (fun m => m.id)
        = List.range' 1 args.length := by
    intro args
    have := add_many_map_id args InboxFile.absent
    simpa using this
  refine ⟨fun f u c t ts n => rfl, key, ?_, ?_⟩
  · intro args
    rw [key args]
    exact List.nodup_range' 1 args.length 1 Nat.one_pos
  · intro args
    rw [key args]
    exact List.pairwise_lt_range' 1 args.length 1 Nat.one_pos

/-- C9: saving a set of timestamps and loading immediately after returns
exactly that set (a set is a duplicate-free list here), and the `updated_at`
marker never affects the loaded set. -/
theorem ledger_round_trip :
    (∀ (S : List String) (now : String), S.Nodup →
      load_acknowledged (save_acknowledged S now) = S) ∧
    (∀ (l : List String) (u u' : String),
      load_acknowledged (LedgerFile.valid l u)
        = load_acknowledged (LedgerFile.valid l u')) := by
  constructor
  · intro S now h
    simpa [load_acknowledged, save_acknowledged] using List.dedup_eq_self.mpr h
  · intro l u u'
    rfl

/-- C9 witness: the round trip evaluated on the concrete set
{"100.1", "200.2"}. -/
theorem ledger_round_trip_witness :
    load_acknowledged (save_acknowledged ["100.1", "200.2"] "T")
      = ["100.1", "200.2"] :=
  ledger_round_trip.1 ["100.1", "200.2"] "T" (by decide)

theorem listenerInv_processEvent (reactOk : String → Bool)
    (clock : SlackEvent → String) (ch : String) (st : ListenerState)
    (ev : SlackEvent) (h : ListenerInv st) :
    ListenerInv (poll_process_event reactOk clock ch st ev).1 := by
  by_cases hb : isBotEvent ev = true
  · simpa [poll_process_event, hb] using h
  · by_cases hk : ev.ts.getD "" ∈ st.known
    · simpa [poll_process_event, hb, hk] using h
    · intro ts
      have hstate : (poll_process_event reactOk clock ch st ev).1
          = ⟨(add_message st.file (ev.user.getD "unknown") ("#" ++ ch)
                (ev.text.getD "") (ev.ts.getD "") (clock ev)).1,
             insert (ev.ts.getD "") st.known⟩ := by
        simp [poll_process_event, hb, hk]
      rw [hstate]
      show tsCount
          (load_inbox (add_message st.file (ev.user.getD "unknown") ("#" ++ ch)
            (ev.text.getD "") (ev.ts.getD "") (clock ev)).1) ts
        = if ts ∈ insert (ev.ts.getD "") st.known then 1 else 0
      rw [load_add_message, tsCount_append]
      by_cases hts : ts = ev.ts.getD ""
      · subst hts
        have h0 := h (ev.ts.getD "")
        rw [if_neg hk] at h0
        rw [h0]
        simp [tsCount, List.filter]
      · have hsingle :
            tsCount [⟨(load_inbox st.file).length + 1, ev.user.getD "unknown",
              "#" ++ ch, ev.text.getD "", some (ev.ts.getD ""), clock ev,
              false⟩] ts = 0 := by
          have hne : ((some (ev.ts.getD "") : Option String) == some ts)
              = false := by
            simp only [beq_eq_false_iff_ne, ne_eq, Option.some.injEq]
            exact fun hcon => hts hcon.symm
          simp [tsCount, List.filter, hne]
        rw [hsingle, Nat.add_zero, h ts]
        have hmem : (ts ∈ insert (ev.ts.getD "") st.known) ↔ ts ∈ st.known := by
          simp [Finset.mem_insert, hts]
        by_cases hin : ts ∈ st.known
        · rw [if_pos hin, if_pos (hmem.mpr hin)]
        · rw [if_neg hin, if_neg (fun hcon => hin (hmem.mp hcon))]

theorem listenerInv_processEvents (reactOk : String → Bool)
    (clock : SlackEvent → String) (ch : String) (l : List SlackEvent) :
    ∀ st : ListenerState, ListenerInv st →
      ListenerInv (poll_process_events reactOk clock ch st l).1 := by
  induction l with
  | nil => intro st h; exact h
  | cons ev rest ih =>
    intro st h
    exact ih _ (listenerInv_processEvent reactOk clock ch st ev h)

theorem known_processEvents (reactOk : String → Bool)
    (clock : SlackEvent → String) (ch : String) (l : List SlackEvent) :
    ∀ st : ListenerState,
      (poll_process_events reactOk clock ch st l).1.known
        = st.known ∪ acceptedSet l := by
  induction l with
  | nil => intro st; simp [poll_process_events, acceptedSet]
  | cons ev rest ih =>
    intro st
    show (poll_process_events reactOk clock ch
        (poll_process_event reactOk clock ch st ev).1 rest).1.known = _
    by_cases hb : isBotEvent ev = true
    · have h1 : (poll_process_event reactOk clock ch st ev).1 = st := by
        simp [poll_process_event, hb]
      have hAcc : acceptedSet (ev :: rest) = acceptedSet rest := by
        simp [acceptedSet, hb]
      rw [h1, ih st, hAcc]
    · have hAcc : acceptedSet (ev :: rest)
          = insert (ev.ts.getD "") (acceptedSet rest) := by
        simp [acceptedSet, hb]
      by_cases hk : ev.ts.getD "" ∈ st.known
      · have h1 : (poll_process_event reactOk clock ch st ev).1 = st := by
          simp [poll_process_event, hb, hk]
        rw [h1, ih st, hAcc]
        ext x
        simp only [Finset.mem_union, Finset.mem_insert]
        constructor
        · rintro (hx | hx)
          · exact Or.inl hx
          · exact Or.inr (Or.inr hx)
        · rintro (hx | rfl | hx)
          · exact Or.inl hx
          · exact Or.inl hk
          · exact Or.inr hx
      · have h1 : (poll_process_event reactOk clock ch st ev).1.known
            = insert (ev.ts.getD "") st.known := by
          simp [poll_process_event, hb, hk]
        rw [ih _, h1, hAcc]
        ext x
        simp only [Finset.mem_union, Finset.mem_insert]
        tauto

theorem mem_acceptedSet (l : List SlackEvent) (ts : String) :
    ts ∈ acceptedSet l
      ↔ ∃ ev ∈ l, isBotEvent ev = false ∧ ev.ts.getD "" = ts := by
  induction l with
  | nil => simp [acceptedSet]
  | cons ev rest ih =>
    by_cases hb : isBotEvent ev = true
    · have hAcc : acceptedSet (ev :: rest) = acceptedSet rest := by
        simp [acceptedSet, hb]
      rw [hAcc, ih]
      constructor
      · rintro ⟨e, he, hbe, hts⟩
        exact ⟨e, List.mem_cons_of_mem _ he, hbe, hts⟩
      · rintro ⟨e, he, hbe, hts⟩
        rcases List.mem_cons.mp he with rfl | he'
        · simp [hb] at hbe
        · exact ⟨e, he', hbe, hts⟩
    · have hb' : isBotEvent ev = false := by simpa using hb
      have hAcc : acceptedSet (ev :: rest)
          = insert (ev.ts.getD "") (acceptedSet rest) := by
        simp [acceptedSet, hb]
      rw [hAcc, Finset.mem_insert, ih]
      constructor
      · rintro (rfl | ⟨e, he, hbe, hts⟩)
        · exact ⟨ev, List.mem_cons_self ev rest, hb', rfl⟩
        · exact ⟨e, List.mem_cons_of_mem _ he, hbe, hts⟩
      · rintro ⟨e, he, hbe, hts⟩
        rcases List.mem_cons.mp he with rfl | he'
        · exact Or.inl hts.symm
        · exact Or.inr ⟨e, he', hbe, hts⟩

/-- C1: processing the same batch twice through the per-event loop, starting
from the empty inbox, stores exactly one message per distinct timestamp of a
non-bot event of the batch and nothing else; concretely, ingesting two events
with identical timestamp "100.1" into an empty inbox yields a store holding
exactly the single record with id 1. -/
theorem idempotent_ingestion :
    (∀ (reactOk : String → Bool) (clock : SlackEvent → String) (ch : String)
        (l : List SlackEvent) (ts : String),
      tsCount (load_inbox
          (poll_process_events reactOk clock ch
            (poll_process_events reactOk clock ch emptyListenerState l).1
            l).1.file) ts
        = if ∃ ev ∈ l, isBotEvent ev = false ∧ ev.ts.getD "" = ts then 1
          else 0) ∧
    load_inbox (poll_process_events (fun _ => true) (fun _ => "T0")
        "C0A8LB49E1M" emptyListenerState
        [⟨none, none, some "100.1", some "U1", some "hi"⟩,
         ⟨none, none, some "100.1", some "U1", some "hi"⟩]).1.file
      = [⟨1, "U1", "#C0A8LB49E1M", "hi", some "100.1", "T0", false⟩] := by
  constructor
  · intro reactOk clock ch l ts
    have hinv0 : ListenerInv emptyListenerState := by
      intro ts'
      simp [emptyListenerState, tsCount, load_inbox, get_known_timestamps]
    have hinv2 := listenerInv_processEvents reactOk clock ch l _
      (listenerInv_processEvents reactOk clock ch l emptyListenerState hinv0)
    have hknown : (poll_process_events reactOk clock ch
        (poll_process_events reactOk clock ch emptyListenerState l).1
        l).1.known = acceptedSet l := by
      rw [known_processEvents, known_processEvents]
      have he : emptyListenerState.known = (∅ : Finset String) := rfl
      rw [he]
      simp
    have hfin := hinv2 ts
    rw [hknown] at hfin
    rw [hfin]
    exact if_congr (mem_acceptedSet l ts) rfl rfl
  · decide

theorem processEvent_state_indep (r1 r2 : String → Bool)
    (clock : SlackEvent → String) (ch : String) (st : ListenerState)
    (ev : SlackEvent) :
    (poll_process_event r1 clock ch st ev).1
      = (poll_process_event r2 clock ch st ev).1 := by
  by_cases hb : isBotEvent ev = true
  · simp [poll_process_event, hb]
  · by_cases hk : ev.ts.getD "" ∈ st.known
    · simp [poll_process_event, hb, hk]
    · simp [poll_process_event, hb, hk]

theorem processEvents_state_indep (r1 r2 : String → Bool)
    (clock : SlackEvent → String) (ch : String) (l : List SlackEvent) :
    ∀ st : ListenerState,
      (poll_process_events r1 clock ch st l).1
        = (poll_process_events r2 clock ch st l).1 := by
  induction l with
  | nil => intro st; rfl
  | cons ev rest ih =>
    intro st
    show (poll_process_events r1 clock ch
        (poll_process_event r1 clock ch st ev).1 rest).1 = _
    rw [processEvent_state_indep r1 r2 clock ch st ev, ih]
    rfl

theorem reactsCovered_append (l₂ : List Effect) : ∀ (l₁ : List Effect)
    (seen : List Message), reactsCovered seen l₁ →
    reactsCovered (seenAfter seen l₁) l₂ → reactsCovered seen (l₁ ++ l₂) := by
  intro l₁
  induction l₁ with
  | nil => intro seen _ h2; exact h2
  | cons e rest ih =>
    intro seen h1 h2
    cases e with
    | append m => exact ih (m :: seen) h1 h2
    | know t => exact ih seen h1 h2
    | react c t ok => exact ⟨h1.1, ih seen h1.2 h2⟩

theorem reactsCovered_processEvent (r : String → Bool)
    (clock : SlackEvent → String) (ch : String) (st : ListenerState)
    (ev : SlackEvent) (seen : List Message) :
    reactsCovered seen (poll_process_event r clock ch st ev).2 := by
  by_cases hb : isBotEvent ev = true
  · simp [poll_process_event, hb, reactsCovered]
  · by_cases hk : ev.ts.getD "" ∈ st.known
    · simp [poll_process_event, hb, hk, reactsCovered]
    · have htr : (poll_process_event r clock ch st ev).2
          = [Effect.append (add_message st.file (ev.user.getD "unknown")
                ("#" ++ ch) (ev.text.getD "") (ev.ts.getD "") (clock ev)).2,
             Effect.know (ev.ts.getD ""),
             Effect.react ch (ev.ts.getD "") (r (ev.ts.getD ""))] := by
        simp [poll_process_event, hb, hk]
      rw [htr]
      refine ⟨⟨(add_message st.file (ev.user.getD "unknown") ("#" ++ ch)
        (ev.text.getD "") (ev.ts.getD "") (clock ev)).2, ?_, rfl⟩, trivial⟩
      exact List.mem_cons_self _ _

theorem reactsCovered_processEvents (r : String → Bool)
    (clock : SlackEvent → String) (ch : String) (l : List SlackEvent) :
    ∀ (st : ListenerState) (seen : List Message),
      reactsCovered seen (poll_process_events r clock ch st l).2 := by
  induction l with
  | nil => intro st seen; trivial
  | cons ev rest ih =>
    intro st seen
    show reactsCovered seen ((poll_process_event r clock ch st ev).2
      ++ (poll_process_events r clock ch
            (poll_process_event r clock ch st ev).1 rest).2)
    exact reactsCovered_append _ _ seen
      (reactsCovered_processEvent r clock ch st ev seen) (ih _ _)

/-- C7: the per-event loop appends durably before the reaction side effect —
every reaction attempt in the effect trace is preceded by the append of a
message with the same timestamp — and the resulting state (store and known
set) is identical whatever the reaction outcomes, so a failed reaction never
aborts the loop, never removes the stored message, and never blocks the rest
of the batch. -/
theorem durable_append_before_side_effect :
    (∀ (r1 r2 : String → Bool) (clock : SlackEvent → String) (ch : String)
        (st : ListenerState) (l : List SlackEvent),
      (poll_process_events r1 clock ch st l).1
        = (poll_process_events r2 clock ch st l).1) ∧
    (∀ (r : String → Bool) (clock : SlackEvent → String) (ch : String)
        (st : ListenerState) (l : List SlackEvent),
      reactsCovered [] (poll_process_events r clock ch st l).2) :=
  ⟨fun r1 r2 clock ch st l => processEvents_state_indep r1 r2 clock ch l st,
   fun r clock ch st l => reactsCovered_processEvents r clock ch l st []⟩

theorem mem_pending_iff (inboxF : InboxFile) (ackF : LedgerFile) (m : Message) :
    m ∈ get_pending_acknowledgments inboxF ackF ↔
      m ∈ load_inbox inboxF ∧ m.read = true ∧
      ledger_skip (load_acknowledged ackF) m = false ∧
      isSystemText m.text = false := by
  simp only [get_pending_acknowledgments, List.mem_filter, Bool.and_eq_true,
    Bool.not_eq_true']
  tauto

theorem ledger_skip_eq_false_iff (ack : List String) (m : Message) :
    ledger_skip ack m = false ↔
      ¬ ∃ ts, m.timestamp = some ts ∧ ts ≠ "" ∧ ts ∈ ack := by
  cases h : m.timestamp with
  | none => simp [ledger_skip, h]
  | some ts => simp [ledger_skip, h]

theorem ackStep_subset (resp : String → String → AckResult) (ch : String)
    (acc : List String × Nat) (msg : Message) :
    acc.1 ⊆ (ackStep resp ch acc msg).1 := by
  cases hts : msg.timestamp with
  | none => simp [ackStep, hts]
  | some ts =>
    simp only [ackStep, hts]
    split
    · exact List.Subset.refl acc.1
    · split
      · exact List.subset_insert ts acc.1
      · exact List.Subset.refl acc.1

theorem ackStep_count_le (resp : String → String → AckResult) (ch : String)
    (acc : List String × Nat) (msg : Message) :
    acc.2 ≤ (ackStep resp ch acc msg).2 := by
  cases hts : msg.timestamp with
  | none => simp [ackStep, hts]
  | some ts =>
    simp only [ackStep, hts]
    split
    · exact le_refl acc.2
    · split
      · exact Nat.le_succ acc.2
      · exact le_refl acc.2

theorem ackStep_nodup (resp : String → String → AckResult) (ch : String)
    (acc : List String × Nat) (msg : Message) (h : acc.1.Nodup) :
    (ackStep resp ch acc msg).1.Nodup := by
  cases hts : msg.timestamp with
  | none => simpa [ackStep, hts] using h
  | some ts =>
    simp only [ackStep, hts]
    split
    · exact h
    · split
      · exact h.insert
      · exact h

theorem foldl_ackStep_subset (resp : String → String → AckResult) (ch : String)
    (l : List Message) : ∀ acc : List String × Nat,
    acc.1 ⊆ (l.foldl (ackStep resp ch) acc).1 := by
  induction l with
  | nil => intro acc; exact List.Subset.refl acc.1
  | cons x rest ih =>
    intro acc
    exact List.Subset.trans (ackStep_subset resp ch acc x)
      (ih (ackStep resp ch acc x))

theorem foldl_ackStep_count_le (resp : String → String → AckResult)
    (ch : String) (l : List Message) : ∀ acc : List String × Nat,
    acc.2 ≤ (l.foldl (ackStep resp ch) acc).2 := by
  induction l with
  | nil => intro acc; exact le_refl acc.2
  | cons x rest ih =>
    intro acc
    exact le_trans (ackStep_count_le resp ch acc x) (ih (ackStep resp ch acc x))

theorem foldl_ackStep_nodup (resp : String → String → AckResult) (ch : String)
    (l : List Message) : ∀ acc : List String × Nat, acc.1.Nodup →
    (l.foldl (ackStep resp ch) acc).1.Nodup := by
  induction l with
  | nil => intro acc h; exact h
  | cons x rest ih =>
    intro acc h
    exact ih (ackStep resp ch acc x) (ackStep_nodup resp ch acc x h)

theorem foldl_ackStep_mem (resp : String → String → AckResult) (ch : String)
    (msg : Message) (ts : String) (hts : msg.timestamp = some ts)
    (hne : ts ≠ "")
    (hok : acknowledge_message (resp (resolveChannel msg.channel ch) ts)
      = true) :
    ∀ (l : List Message) (acc : List String × Nat), msg ∈ l →
      ts ∈ (l.foldl (ackStep resp ch) acc).1 ∧
      acc.2 < (l.foldl (ackStep resp ch) acc).2 := by
  intro l
  induction l with
  | nil => intro acc hm; cases hm
  | cons x rest ih =>
    intro acc hm
    rcases List.mem_cons.mp hm with rfl | hm'
    · have hstep : ackStep resp ch acc msg = (acc.1.insert ts, acc.2 + 1) := by
        simp [ackStep, hts, hne, hok]
      rw [List.foldl_cons, hstep]
      constructor
      · exact foldl_ackStep_subset resp ch rest _
          (List.mem_insert_self ts acc.1)
      · have h2 := foldl_ackStep_count_le resp ch rest
          (List.insert ts acc.1, acc.2 + 1)
        exact lt_of_lt_of_le (Nat.lt_succ_self acc.2) h2
    · rw [List.foldl_cons]
      refine ⟨(ih _ hm').1, lt_of_le_of_lt ?_ (ih _ hm').2⟩
      exact ackStep_count_le resp ch acc x

theorem foldl_ackStep_not_mem (resp : String → String → AckResult)
    (ch : String) (ts : String)
    (hfail : ∀ c, acknowledge_message (resp c ts) = false) :
    ∀ (l : List Message) (acc : List String × Nat), ts ∉ acc.1 →
      ts ∉ (l.foldl (ackStep resp ch) acc).1 := by
  intro l
  induction l with
  | nil => intro acc hacc; exact hacc
  | cons x rest ih =>
    intro acc hacc
    rw [List.foldl_cons]
    refine ih _ ?_
    cases hxts : x.timestamp with
    | none => simpa [ackStep, hxts] using hacc
    | some ts' =>
      simp only [ackStep, hxts]
      split
      · exact hacc
      · split
        · rename_i hne' hok'
          rw [List.mem_insert_iff]
          rintro (rfl | hmem)
          · rw [hfail (resolveChannel x.channel ch)] at hok'
            exact absurd hok' (by simp)
          · exact hacc hmem
        · exact hacc

theorem load_acknowledged_nodup (f : LedgerFile) :
    (load_acknowledged f).Nodup := by
  cases f with
  | absent => exact List.nodup_nil
  | corrupt => exact List.nodup_nil
  | valid l u => exact List.nodup_dedup l

theorem process_acknowledgments_empty (resp : String → String → AckResult)
    (ch : String) (inboxF : InboxFile) (ackF : LedgerFile) (now : String)
    (h : (get_pending_acknowledgments inboxF ackF).isEmpty = true) :
    process_acknowledgments resp ch inboxF ackF now = ⟨0, ackF, []⟩ := by
  simp [process_acknowledgments, h]

theorem process_acknowledgments_pos (resp : String → String → AckResult)
    (ch : String) (inboxF : InboxFile) (ackF : LedgerFile) (now : String)
    (h : (get_pending_acknowledgments inboxF ackF).isEmpty = false)
    (hc : 0 < ((get_pending_acknowledgments inboxF ackF).foldl
        (ackStep resp ch) (load_acknowledged ackF, 0)).2) :
    process_acknowledgments resp ch inboxF ackF now
      = ⟨((get_pending_acknowledgments inboxF ackF).foldl (ackStep resp ch)
            (load_acknowledged ackF, 0)).2,
         save_acknowledged ((get_pending_acknowledgments inboxF ackF).foldl
            (ackStep resp ch) (load_acknowledged ackF, 0)).1 now,
         [((get_pending_acknowledgments inboxF ackF).foldl (ackStep resp ch)
            (load_acknowledged ackF, 0)).1]⟩ := by
  simp [process_acknowledgments, h, hc]

theorem process_acknowledgments_zero (resp : String → String → AckResult)
    (ch : String) (inboxF : InboxFile) (ackF : LedgerFile) (now : String)
    (h : (get_pending_acknowledgments inboxF ackF).isEmpty = false)
    (hc : ¬ 0 < ((get_pending_acknowledgments inboxF ackF).foldl
        (ackStep resp ch) (load_acknowledged ackF, 0)).2) :
    process_acknowledgments resp ch inboxF ackF now
      = ⟨((get_pending_acknowledgments inboxF ackF).foldl (ackStep resp ch)
            (load_acknowledged ackF, 0)).2, ackF, []⟩ := by
  simp [process_acknowledgments, h, hc]

theorem load_save_of_nodup (S : List String) (now : String) (h : S.Nodup) :
    load_acknowledged (save_acknowledged S now) = S := by
  simpa [load_acknowledged, save_acknowledged] using List.dedup_eq_self.mpr h

theorem load_process_subset (resp : String → String → AckResult) (ch : String)
    (inboxF : InboxFile) (ackF : LedgerFile) (now : String) :
    load_acknowledged ackF ⊆
      load_acknowledged
        (process_acknowledgments resp ch inboxF ackF now).ackFile := by
  by_cases h : (get_pending_acknowledgments inboxF ackF).isEmpty = true
  · rw [process_acknowledgments_empty resp ch inboxF ackF now h]
    exact List.Subset.refl _
  · rw [Bool.not_eq_true] at h
    by_cases hc : 0 < ((get_pending_acknowledgments inboxF ackF).foldl
        (ackStep resp ch) (load_acknowledged ackF, 0)).2
    · rw [process_acknowledgments_pos resp ch inboxF ackF now h hc]
      have hnd : ((get_pending_acknowledgments inboxF ackF).foldl
          (ackStep resp ch) (load_acknowledged ackF, 0)).1.Nodup :=
        foldl_ackStep_nodup resp ch _ _ (load_acknowledged_nodup ackF)
      have hsub := foldl_ackStep_subset resp ch
        (get_pending_acknowledgments inboxF ackF) (load_acknowledged ackF, 0)
      rw [show (⟨((get_pending_acknowledgments inboxF ackF).foldl
            (ackStep resp ch) (load_acknowledged ackF, 0)).2,
          save_acknowledged ((get_pending_acknowledgments inboxF ackF).foldl
            (ackStep resp ch) (load_acknowledged ackF, 0)).1 now,
          [((get_pending_acknowledgments inboxF ackF).foldl (ackStep resp ch)
            (load_acknowledged ackF, 0)).1]⟩ : AckCycleResult).ackFile
          = save_acknowledged ((get_pending_acknowledgments inboxF ackF).foldl
            (ackStep resp ch) (load_acknowledged ackF, 0)).1 now from rfl]
      rw [load_save_of_nodup _ now hnd]
      exact hsub
    · rw [process_acknowledgments_zero resp ch inboxF ackF now h hc]
      exact List.Subset.refl _

theorem process_ackFile_shape (resp : String → String → AckResult)
    (ch : String) (inboxF : InboxFile) (ackF : LedgerFile) (now : String) :
    (process_acknowledgments resp ch inboxF ackF now).ackFile = ackF ∨
    ∃ S u, (process_acknowledgments resp ch inboxF ackF now).ackFile
        = LedgerFile.valid S u ∧ S.Nodup := by
  by_cases h : (get_pending_acknowledgments inboxF ackF).isEmpty = true
  · rw [process_acknowledgments_empty resp ch inboxF ackF now h]
    exact Or.inl rfl
  · rw [Bool.not_eq_true] at h
    by_cases hc : 0 < ((get_pending_acknowledgments inboxF ackF).foldl
        (ackStep resp ch) (load_acknowledged ackF, 0)).2
    · rw [process_acknowledgments_pos resp ch inboxF ackF now h hc]
      refine Or.inr ⟨((get_pending_acknowledgments inboxF ackF).foldl
        (ackStep resp ch) (load_acknowledged ackF, 0)).1, now, rfl, ?_⟩
      exact foldl_ackStep_nodup resp ch _ _ (load_acknowledged_nodup ackF)
    · rw [process_acknowledgments_zero resp ch inboxF ackF now h hc]
      exact Or.inl rfl

/-- C4: FALSE as stated.  A read message with the falsy timestamp "" whose
timestamp IS in the ledger is still returned as pending, because the code
only applies the ledger-membership filter to truthy timestamps
(slack_acknowledger.py lines 99-100). -/
theorem pending_rule_counterexample :
    (⟨1, "U1", "#C0A8LB49E1M", "hi", some "", "T0", true⟩ : Message) ∈
      get_pending_acknowledgments
        (InboxFile.valid
          [⟨1, "U1", "#C0A8LB49E1M", "hi", some "", "T0", true⟩])
        (LedgerFile.valid [""] "T1") ∧
    (⟨1, "U1", "#C0A8LB49E1M", "hi", some "", "T0", true⟩ : Message).read
      = true ∧
    (⟨1, "U1", "#C0A8LB49E1M", "hi", some "", "T0", true⟩ : Message).timestamp
      = some "" ∧
    "" ∈ load_acknowledged (LedgerFile.valid [""] "T1") := by
  refine ⟨by decide, rfl, rfl, by decide⟩

/-- C4 (amended): a message is pending iff it is in the loaded inbox, is
read, it is NOT the case that its timestamp is truthy (present and nonempty)
and in the acknowledged set, and its text contains no system-event
substring; in particular a message whose text contains "has joined the
channel" is never pending, regardless of read state or ledger. -/
theorem pending_rule_iff :
    (∀ (inboxF : InboxFile) (ackF : LedgerFile) (m : Message),
      m ∈ get_pending_acknowledgments inboxF ackF ↔
        m ∈ load_inbox inboxF ∧ m.read = true ∧
        ¬(∃ ts, m.timestamp = some ts ∧ ts ≠ "" ∧
            ts ∈ load_acknowledged ackF) ∧
        isSystemText m.text = false) ∧
    (∀ (inboxF : InboxFile) (ackF : LedgerFile) (m : Message),
      "has joined the channel".data <:+: m.text.data →
      m ∉ get_pending_acknowledgments inboxF ackF) := by
  constructor
  · intro inboxF ackF m
    rw [mem_pending_iff, ledger_skip_eq_false_iff]
  · intro inboxF ackF m hjoin hcon
    have hsys := ((mem_pending_iff inboxF ackF m).mp hcon).2.2.2
    simp [isSystemText, hjoin] at hsys

/-- C4 witness: the system-event exclusion applied to a concrete read,
unacknowledged message whose text contains "has joined the channel". -/
theorem pending_rule_iff_witness :
    (⟨1, "U1", "#C0A8LB49E1M", "bob has joined the channel", some "9", "T",
        true⟩ : Message) ∉
      get_pending_acknowledgments
        (InboxFile.valid [⟨1, "U1", "#C0A8LB49E1M",
          "bob has joined the channel", some "9", "T", true⟩])
        LedgerFile.absent :=
  pending_rule_iff.2 _ _ _ (by decide)

/-- C10: a read, non-system message with a missing or empty timestamp is
pending against EVERY ledger state, the acknowledgment loop's fold leaves
the accumulator untouched on it (no call issued, nothing added to the
ledger), and it is still pending after any full acknowledger cycle — it
stays pending forever. -/
theorem timestampless_forever_pending (inboxF : InboxFile) (msg : Message)
    (hmem : msg ∈ load_inbox inboxF)
    (hread : msg.read = true)
    (hts : msg.timestamp = none ∨ msg.timestamp = some "")
    (hsys : isSystemText msg.text = false) :
    (∀ ackF : LedgerFile, msg ∈ get_pending_acknowledgments inboxF ackF) ∧
    (∀ (resp : String → String → AckResult) (ch : String)
        (acc : List String × Nat), ackStep resp ch acc msg = acc) ∧
    (∀ (resp : String → String → AckResult) (ch : String) (ackF : LedgerFile)
        (now : String),
      msg ∈ get_pending_acknowledgments inboxF
        (process_acknowledgments resp ch inboxF ackF now).ackFile) := by
  have hskip : ∀ ack : List String, ledger_skip ack msg = false := by
    intro ack
    rcases hts with h | h <;> simp [ledger_skip, h]
  have hpend : ∀ ackF : LedgerFile,
      msg ∈ get_pending_acknowledgments inboxF ackF := by
    intro ackF
    exact (mem_pending_iff inboxF ackF msg).mpr ⟨hmem, hread, hskip _, hsys⟩
  refine ⟨hpend, ?_, fun resp ch ackF now => hpend _⟩
  intro resp ch acc
  rcases hts with h | h <;> simp [ackStep, h]

/-- C10 witness: the theorem applied to a concrete read message whose
timestamp key is missing. -/
theorem timestampless_forever_pending_witness :
    (∀ ackF : LedgerFile,
      (⟨1, "U1", "#C0A8LB49E1M", "hi", none, "T", true⟩ : Message) ∈
        get_pending_acknowledgments
          (InboxFile.valid [⟨1, "U1", "#C0A8LB49E1M", "hi", none, "T", true⟩])
          ackF) ∧
    (∀ (resp : String → String → AckResult) (ch : String)
        (acc : List String × Nat),
      ackStep resp ch acc ⟨1, "U1", "#C0A8LB49E1M", "hi", none, "T", true⟩
        = acc) ∧
    (∀ (resp : String → String → AckResult) (ch : String) (ackF : LedgerFile)
        (now : String),
      (⟨1, "U1", "#C0A8LB49E1M", "hi", none, "T", true⟩ : Message) ∈
        get_pending_acknowledgments
          (InboxFile.valid [⟨1, "U1", "#C0A8LB49E1M", "hi", none, "T", true⟩])
          (process_acknowledgments resp ch
            (InboxFile.valid
              [⟨1, "U1", "#C0A8LB49E1M", "hi", none, "T", true⟩])
            ackF now).ackFile) :=
  timestampless_forever_pending
    (InboxFile.valid [⟨1, "U1", "#C0A8LB49E1M", "hi", none, "T", true⟩])
    ⟨1, "U1", "#C0A8LB49E1M", "hi", none, "T", true⟩
    (by decide) rfl (Or.inl rfl) (by decide)

/-- C6: FALSE as stated.  A cycle with nothing pending (here: empty inbox)
performs ZERO ledger saves, not one — the code only saves when
`new_count > 0` (slack_acknowledger.py lines 162-163). -/
theorem ledger_once_counterexample :
    (process_acknowledgments (fun _ _ => AckResult.success) "C0A8LB49E1M"
        InboxFile.absent LedgerFile.absent "T").saves = [] ∧
    (process_acknowledgments (fun _ _ => AckResult.success) "C0A8LB49E1M"
        InboxFile.absent LedgerFile.absent "T").saves.length ≠ 1 := by
  exact ⟨rfl, by decide⟩

/-- C6 (amended): in every acknowledger cycle the ledger is saved AT MOST
once, and a save happens IF AND ONLY IF at least one message was newly
acknowledged (the returned count is positive) — so exactly once when the
count is positive and not at all otherwise; any saved set is a superset of
the set loaded at the start of the cycle (the ledger never shrinks) and is
exactly what the resulting ledger file loads to, i.e. the save happens after
the whole pending batch has been folded. -/
theorem ledger_write_discipline (resp : String → String → AckResult)
    (ch : String) (inboxF : InboxFile) (ackF : LedgerFile) (now : String) :
    (process_acknowledgments resp ch inboxF ackF now).saves.length ≤ 1 ∧
    ((process_acknowledgments resp ch inboxF ackF now).saves = []
      ↔ (process_acknowledgments resp ch inboxF ackF now).newCount = 0) ∧
    (∀ s ∈ (process_acknowledgments resp ch inboxF ackF now).saves,
      load_acknowledged ackF ⊆ s ∧
      load_acknowledged
        (process_acknowledgments resp ch inboxF ackF now).ackFile = s) := by
  by_cases h : (get_pending_acknowledgments inboxF ackF).isEmpty = true
  · rw [process_acknowledgments_empty resp ch inboxF ackF now h]
    refine ⟨Nat.zero_le 1, by simp, ?_⟩
    intro s hs
    exact absurd hs (List.not_mem_nil s)
  · rw [Bool.not_eq_true] at h
    by_cases hc : 0 < ((get_pending_acknowledgments inboxF ackF).foldl
        (ackStep resp ch) (load_acknowledged ackF, 0)).2
    · have hfile := process_acknowledgments_pos resp ch inboxF ackF now h hc
      have hnd : ((get_pending_acknowledgments inboxF ackF).foldl
          (ackStep resp ch) (load_acknowledged ackF, 0)).1.Nodup :=
        foldl_ackStep_nodup resp ch _ _ (load_acknowledged_nodup ackF)
      rw [hfile]
      refine ⟨le_refl 1, ?_, ?_⟩
      · constructor
        · intro hcon
          exact absurd hcon (by simp)
        · intro hcon
          have hc0 : ((get_pending_acknowledgments inboxF ackF).foldl
              (ackStep resp ch) (load_acknowledged ackF, 0)).2 = 0 := hcon
          rw [hc0] at hc
          exact (Nat.lt_irrefl 0 hc).elim
      · intro s hs
        have hseq : s = ((get_pending_acknowledgments inboxF ackF).foldl
            (ackStep resp ch) (load_acknowledged ackF, 0)).1 := by
          rcases List.mem_singleton.mp hs with rfl
          rfl
        rw [hseq]
        constructor
        · exact foldl_ackStep_subset resp ch
            (get_pending_acknowledgments inboxF ackF)
            (load_acknowledged ackF, 0)
        · exact load_save_of_nodup _ now hnd
    · rw [process_acknowledgments_zero resp ch inboxF ackF now h hc]
      refine ⟨Nat.zero_le 1, by simp [Nat.eq_zero_of_not_pos hc], ?_⟩
      intro s hs
      exact absurd hs (List.not_mem_nil s)

/-- C6 witness: the amended discipline on a concrete cycle that acknowledges
one message and saves the singleton ledger once, with the inner membership
hypothesis discharged on the actually-saved set. -/
theorem ledger_write_discipline_witness :
    (process_acknowledgments (fun _ _ => AckResult.success) "C0A8LB49E1M"
        (InboxFile.valid
          [⟨1, "U1", "#C0A8LB49E1M", "hi", some "100.1", "T0", true⟩])
        LedgerFile.absent "T").saves.length ≤ 1 ∧
    ((process_acknowledgments (fun _ _ => AckResult.success) "C0A8LB49E1M"
        (InboxFile.valid
          [⟨1, "U1", "#C0A8LB49E1M", "hi", some "100.1", "T0", true⟩])
        LedgerFile.absent "T").saves = []
      ↔ (process_acknowledgments (fun _ _ => AckResult.success) "C0A8LB49E1M"
          (InboxFile.valid
            [⟨1, "U1", "#C0A8LB49E1M", "hi", some "100.1", "T0", true⟩])
          LedgerFile.absent "T").newCount = 0) ∧
    load_acknowledged LedgerFile.absent ⊆ ["100.1"] ∧
    load_acknowledged
        (process_acknowledgments (fun _ _ => AckResult.success) "C0A8LB49E1M"
          (InboxFile.valid
            [⟨1, "U1", "#C0A8LB49E1M", "hi", some "100.1", "T0", true⟩])
          LedgerFile.absent "T").ackFile = ["100.1"] :=
  ⟨(ledger_write_discipline (fun _ _ => AckResult.success) "C0A8LB49E1M"
      (InboxFile.valid
        [⟨1, "U1", "#C0A8LB49E1M", "hi", some "100.1", "T0", true⟩])
      LedgerFile.absent "T").1,
   (ledger_write_discipline (fun _ _ => AckResult.success) "C0A8LB49E1M"
      (InboxFile.valid
        [⟨1, "U1", "#C0A8LB49E1M", "hi", some "100.1", "T0", true⟩])
      LedgerFile.absent "T").2.1,
   ((ledger_write_discipline (fun _ _ => AckResult.success) "C0A8LB49E1M"
      (InboxFile.valid
        [⟨1, "U1", "#C0A8LB49E1M", "hi", some "100.1", "T0", true⟩])
      LedgerFile.absent "T").2.2 ["100.1"] (by decide)).1,
   ((ledger_write_discipline (fun _ _ => AckResult.success) "C0A8LB49E1M"
      (InboxFile.valid
        [⟨1, "U1", "#C0A8LB49E1M", "hi", some "100.1", "T0", true⟩])
      LedgerFile.absent "T").2.2 ["100.1"] (by decide)).2⟩

/-- C5: for a read, non-system message with truthy timestamp `ts` not yet in
the ledger, when the provider accepts the acknowledgment (success or
"already_reacted"): the first cycle puts `ts` in the ledger; a second cycle
keeps it there and the persisted `acknowledged` array contains `ts` exactly
once; "already_reacted" is treated as success (and the model is total, so
no cycle raises); and a cycle in which every call for `ts` fails leaves
`ts` out of the ledger, to be retried. -/
theorem acknowledgment_idempotence
    (resp : String → String → AckResult) (ch now now2 : String)
    (inboxF : InboxFile) (ackF : LedgerFile) (msg : Message) (ts : String)
    (hmem : msg ∈ load_inbox inboxF)
    (hread : msg.read = true)
    (hts : msg.timestamp = some ts)
    (hne : ts ≠ "")
    (hsys : isSystemText msg.text = false)
    (hnew : ts ∉ load_acknowledged ackF)
    (hok : acknowledge_message (resp (resolveChannel msg.channel ch) ts)
      = true) :
    ts ∈ load_acknowledged
        (process_acknowledgments resp ch inboxF ackF now).ackFile ∧
    ts ∈ load_acknowledged
        (process_acknowledgments resp ch inboxF
          (process_acknowledgments resp ch inboxF ackF now).ackFile
          now2).ackFile ∧
    (∀ l u,
      (process_acknowledgments resp ch inboxF
          (process_acknowledgments resp ch inboxF ackF now).ackFile
          now2).ackFile = LedgerFile.valid l u → l.count ts = 1) ∧
    acknowledge_message AckResult.alreadyReacted = true ∧
    (∀ (resp2 : String → String → AckResult) (ackF2 : LedgerFile),
      ts ∉ load_acknowledged ackF2 →
      (∀ c, acknowledge_message (resp2 c ts) = false) →
      ts ∉ load_acknowledged
          (process_acknowledgments resp2 ch inboxF ackF2 now).ackFile) := by
  have hskip : ledger_skip (load_acknowledged ackF) msg = false := by
    simp [ledger_skip, hts, hne, hnew]
  have hpend : msg ∈ get_pending_acknowledgments inboxF ackF :=
    (mem_pending_iff _ _ _).mpr ⟨hmem, hread, hskip, hsys⟩
  have hempty : (get_pending_acknowledgments inboxF ackF).isEmpty = false := by
    rcases hpnil : get_pending_acknowledgments inboxF ackF with _ | ⟨a, rest⟩
    · rw [hpnil] at hpend; cases hpend
    · rfl
  have hr := foldl_ackStep_mem resp ch msg ts hts hne hok
    (get_pending_acknowledgments inboxF ackF) (load_acknowledged ackF, 0)
    hpend
  have hc : 0 < ((get_pending_acknowledgments inboxF ackF).foldl
      (ackStep resp ch) (load_acknowledged ackF, 0)).2 := hr.2
  have hfile1 := process_acknowledgments_pos resp ch inboxF ackF now hempty hc
  have hnd1 : ((get_pending_acknowledgments inboxF ackF).foldl
      (ackStep resp ch) (load_acknowledged ackF, 0)).1.Nodup :=
    foldl_ackStep_nodup resp ch _ _ (load_acknowledged_nodup ackF)
  have hload1 : load_acknowledged
      (process_acknowledgments resp ch inboxF ackF now).ackFile
      = ((get_pending_acknowledgments inboxF ackF).foldl (ackStep resp ch)
          (load_acknowledged ackF, 0)).1 := by
    rw [hfile1]
    exact load_save_of_nodup _ now hnd1
  have hmem1 : ts ∈ load_acknowledged
      (process_acknowledgments resp ch inboxF ackF now).ackFile := by
    rw [hload1]; exact hr.1
  have hmem2 : ts ∈ load_acknowledged
      (process_acknowledgments resp ch inboxF
        (process_acknowledgments resp ch inboxF ackF now).ackFile
        now2).ackFile :=
    load_process_subset resp ch inboxF _ now2 hmem1
  refine ⟨hmem1, hmem2, ?_, rfl, ?_⟩
  · intro l u heq
    rcases process_ackFile_shape resp ch inboxF
        ((process_acknowledgments resp ch inboxF ackF now).ackFile) now2 with
      hsh | ⟨S, u', hS, hSnd⟩
    · rw [hsh, hfile1] at heq
      have heq' : LedgerFile.valid
          ((get_pending_acknowledgments inboxF ackF).foldl (ackStep resp ch)
            (load_acknowledged ackF, 0)).1 now = LedgerFile.valid l u := heq
      obtain ⟨hl, hu⟩ := LedgerFile.valid.inj heq'
      rw [← hl]
      exact List.count_eq_one_of_mem hnd1 hr.1
    · rw [hS] at heq
      obtain ⟨hl, hu⟩ := LedgerFile.valid.inj heq
      rw [← hl]
      have hm2 := hmem2
      rw [hS] at hm2
      have hmS : ts ∈ S := by
        simp only [load_acknowledged] at hm2
        exact List.mem_dedup.mp hm2
      exact List.count_eq_one_of_mem hSnd hmS
  · intro resp2 ackF2 hnew2 hfail
    by_cases hemp : (get_pending_acknowledgments inboxF ackF2).isEmpty = true
    · rw [process_acknowledgments_empty resp2 ch inboxF ackF2 now hemp]
      exact hnew2
    · rw [Bool.not_eq_true] at hemp
      have hnot := foldl_ackStep_not_mem resp2 ch ts hfail
        (get_pending_acknowledgments inboxF ackF2)
        (load_acknowledged ackF2, 0) hnew2
      by_cases hc2 : 0 < ((get_pending_acknowledgments inboxF ackF2).foldl
          (ackStep resp2 ch) (load_acknowledged ackF2, 0)).2
      · rw [process_acknowledgments_pos resp2 ch inboxF ackF2 now hemp hc2]
        have hnd2 : ((get_pending_acknowledgments inboxF ackF2).foldl
            (ackStep resp2 ch) (load_acknowledged ackF2, 0)).1.Nodup :=
          foldl_ackStep_nodup resp2 ch _ _ (load_acknowledged_nodup ackF2)
        intro hconmem
        have hconmem' : ts ∈ ((get_pending_acknowledgments inboxF ackF2).foldl
            (ackStep resp2 ch) (load_acknowledged ackF2, 0)).1 := by
          have hload := load_save_of_nodup
            ((get_pending_acknowledgments inboxF ackF2).foldl
              (ackStep resp2 ch) (load_acknowledged ackF2, 0)).1 now hnd2
          rw [show (⟨((get_pending_acknowledgments inboxF ackF2).foldl
              (ackStep resp2 ch) (load_acknowledged ackF2, 0)).2,
            save_acknowledged
              ((get_pending_acknowledgments inboxF ackF2).foldl
                (ackStep resp2 ch) (load_acknowledged ackF2, 0)).1 now,
            [((get_pending_acknowledgments inboxF ackF2).foldl
                (ackStep resp2 ch)
                (load_acknowledged ackF2, 0)).1]⟩ : AckCycleResult).ackFile
              = save_acknowledged
                ((get_pending_acknowledgments inboxF ackF2).foldl
                  (ackStep resp2 ch) (load_acknowledged ackF2, 0)).1 now
            from rfl, hload] at hconmem
          exact hconmem
        exact hnot hconmem'
      · rw [process_acknowledgments_zero resp2 ch inboxF ackF2 now hemp hc2]
        exact hnew2

/-- C5 witness: the idempotence theorem evaluated on a concrete one-message
inbox with timestamp "100.1" and an always-successful provider. -/
theorem acknowledgment_idempotence_witness :
    "100.1" ∈ load_acknowledged
        (process_acknowledgments (fun _ _ => AckResult.success) "C0A8LB49E1M"
          (InboxFile.valid
            [⟨1, "U1", "#C0A8LB49E1M", "hi", some "100.1", "T0", true⟩])
          LedgerFile.absent "T1").ackFile ∧
    "100.1" ∈ load_acknowledged
        (process_acknowledgments (fun _ _ => AckResult.success) "C0A8LB49E1M"
          (InboxFile.valid
            [⟨1, "U1", "#C0A8LB49E1M", "hi", some "100.1", "T0", true⟩])
          (process_acknowledgments (fun _ _ => AckResult.success)
            "C0A8LB49E1M"
            (InboxFile.valid
              [⟨1, "U1", "#C0A8LB49E1M", "hi", some "100.1", "T0", true⟩])
            LedgerFile.absent "T1").ackFile "T2").ackFile ∧
    (∀ l u,
      (process_acknowledgments (fun _ _ => AckResult.success) "C0A8LB49E1M"
          (InboxFile.valid
            [⟨1, "U1", "#C0A8LB49E1M", "hi", some "100.1", "T0", true⟩])
          (process_acknowledgments (fun _ _ => AckResult.success)
            "C0A8LB49E1M"
            (InboxFile.valid
              [⟨1, "U1", "#C0A8LB49E1M", "hi", some "100.1", "T0", true⟩])
            LedgerFile.absent "T1").ackFile "T2").ackFile
        = LedgerFile.valid l u → l.count "100.1" = 1) ∧
    acknowledge_message AckResult.alreadyReacted = true ∧
    (∀ (resp2 : String → String → AckResult) (ackF2 : LedgerFile),
      "100.1" ∉ load_acknowledged ackF2 →
      (∀ c, acknowledge_message (resp2 c "100.1") = false) →
      "100.1" ∉ load_acknowledged
          (process_acknowledgments resp2 "C0A8LB49E1M"
            (InboxFile.valid
              [⟨1, "U1", "#C0A8LB49E1M", "hi", some "100.1", "T0", true⟩])
            ackF2 "T1").ackFile) :=
  acknowledgment_idempotence (fun _ _ => AckResult.success) "C0A8LB49E1M"
    "T1" "T2"
    (InboxFile.valid
      [⟨1, "U1", "#C0A8LB49E1M", "hi", some "100.1", "T0", true⟩])
    LedgerFile.absent
    ⟨1, "U1", "#C0A8LB49E1M", "hi", some "100.1", "T0", true⟩ "100.1"
    (by decide) rfl rfl (by decide) (by decide) (by decide) rfl
